import Mathlib

/-!
Verification of `allure-pytest/src/utils.py` (the metadata extractor of the
allure-pytest plugin).  The Python module is shallowly embedded below: each
Python function is translated into a Lean definition of the same name, with
Python exceptions modelled as `Option`/`none` results and host-provided
pytest objects (items, markers) modelled as explicit structures.
-/

/-- A pytest marker (annotation): a name with positional arguments and
keyword arguments.  Argument values are modelled as strings. -/
structure Mark where
  name : String
  args : List String
  kwargs : List (String × String)
deriving DecidableEq

/-- The underlying test function of an item: only its docstring
(`__doc__`, possibly `None`) is relevant to the module. -/
structure FunctionInfo where
  doc : Option String
deriving DecidableEq

/-- A pytest test item, as consumed by the module: its node id, its name,
the markers visible from it (in `iter_markers()` order, closest first),
the keys of its `keywords` mapping, and its optional underlying function
(`hasattr(item, 'function')` is `function.isSome`). -/
structure Item where
  nodeid : String
  name : String
  markers : List Mark
  keywords : List String
  function : Option FunctionInfo
deriving DecidableEq

/-- `dict.get` / `dict[...]` on a kwargs mapping: first binding of the key. -/
def kwLookup : List (String × String) → String → Option String
  | [], _ => none
  | (k, v) :: rest, key => if k = key then some v else kwLookup rest key

def ALLURE_DISPLAY_NAME_MARK : String := "allure_display_name"

def ALLURE_DESCRIPTION_MARK : String := "allure_description"

def ALLURE_DESCRIPTION_HTML_MARK : String := "allure_description_html"

def ALLURE_LABEL_MARK : String := "allure_label"

def ALLURE_LINK_MARK : String := "allure_link"

namespace LabelType

/-- Label-kind identifiers from `allure_commons.types.LabelType`
(outside `src/`): the standard allure label ids. -/
def SEVERITY : String := "severity"

def FRAMEWORK : String := "framework"

def HOST : String := "host"

def SUITE : String := "suite"

def PARENT_SUITE : String := "parentSuite"

def SUB_SUITE : String := "subSuite"

end LabelType

def ALLURE_UNIQUE_LABELS : List String :=
  [LabelType.SEVERITY, LabelType.FRAMEWORK, LabelType.HOST,
   LabelType.SUITE, LabelType.PARENT_SUITE, LabelType.SUB_SUITE]

/-- `item.iter_markers(name=name)`: the item's markers with the given name,
in iteration order. -/
def iter_markers (item : Item) (name : String) : List Mark :=
  item.markers.filter (fun m => m.name == name)

/-- `item.get_closest_marker(keyword)`: the first marker with that name, if any. -/
def get_closest_marker (item : Item) (keyword : String) : Option Mark :=
  item.markers.find? (fun m => m.name == keyword)

/-- `get_marker_value(item, keyword)`: `marker.args[0] if marker and marker.args
else None`. -/
def get_marker_value (item : Item) (keyword : String) : Option String :=
  (get_closest_marker item keyword).bind (fun marker => marker.args.head?)

/-- `allure_title(item)`. -/
def allure_title (item : Item) : Option String :=
  get_marker_value item ALLURE_DISPLAY_NAME_MARK

/-- Python truthiness of an optional string: `None` and `""` are falsy. -/
def truthyOpt : Option String → Bool
  | none => false
  | some s => s ≠ ""

/-- `allure_description(item)`: the description marker value if truthy, else
the underlying function's docstring when the item has a function, else `None`. -/
def allure_description (item : Item) : Option String :=
  let description := get_marker_value item ALLURE_DESCRIPTION_MARK
  if truthyOpt description then description
  else
    match item.function with
    | some f => f.doc
    | none => none

/-- `allure_description_html(item)`. -/
def allure_description_html (item : Item) : Option String :=
  get_marker_value item ALLURE_DESCRIPTION_HTML_MARK

/-- `allure_label(item, label)`: all positional args of `allure_label` markers
whose `label_type` kwarg equals `label`, in encounter order. -/
def allure_label (item : Item) (label : String) : List String :=
  (iter_markers item ALLURE_LABEL_MARK).foldl
    (fun acc mark =>
      if kwLookup mark.kwargs "label_type" = some label then acc ++ mark.args else acc)
    []

/-- The `allure_label` markers of an item, in iteration order. -/
def labelMarks (item : Item) : List Mark := iter_markers item ALLURE_LABEL_MARK

/-- `mark.kwargs["label_type"]`, `none` modelling the `KeyError`. -/
def markLabelType (m : Mark) : Option String := kwLookup m.kwargs "label_type"

/-- Key-membership test on the `unique_labels` dict (an ordered assoc list). -/
def hasKey (uniq : List (String × String)) (k : String) : Bool :=
  uniq.any (fun q => q.1 == k)

/-- One iteration of the `allure_labels` loop body: `none` models the
`KeyError` on a missing `label_type` kwarg and the `IndexError` on
`mark.args[0]` for a unique-kind marker without positional args. -/
def processLabelMark (uniq : List (String × String)) (labs : Finset (String × String))
    (mark : Mark) : Option (List (String × String) × Finset (String × String)) :=
  match markLabelType mark with
  | none => none
  | some label_type =>
    if label_type ∈ ALLURE_UNIQUE_LABELS then
      if hasKey uniq label_type then some (uniq, labs)
      else
        match mark.args with
        | [] => none
        | a :: _ => some (uniq ++ [(label_type, a)], labs)
    else some (uniq, labs ∪ (mark.args.map (fun a => (label_type, a))).toFinset)

/-- The `allure_labels` loop over the marker list, threading the
`unique_labels` dict and the `labels` set. -/
def collectLabels :
    List Mark → List (String × String) → Finset (String × String) →
    Option (List (String × String) × Finset (String × String))
  | [], uniq, labs => some (uniq, labs)
  | m :: ms, uniq, labs =>
    match processLabelMark uniq labs m with
    | none => none
    | some (u, l) => collectLabels ms u l

/-- `allure_labels(item)`: the set of (kind, value) pairs; unique kinds keep
only the first encountered value, other kinds accumulate with set semantics. -/
def allure_labels (item : Item) : Option (Finset (String × String)) :=
  (collectLabels (labelMarks item) [] ∅).map (fun ul => ul.2 ∪ ul.1.toFinset)

/-- The `allure_link` markers of an item, in iteration order. -/
def linkMarks (item : Item) : List Mark := iter_markers item ALLURE_LINK_MARK

/-- The `allure_links` loop: each marker yields
`(kwargs["link_type"], args[0], kwargs["name"])`; `none` models the
`KeyError`/`IndexError` on a malformed marker. -/
def collectLinks : List Mark → Option (List (String × String × String))
  | [] => some []
  | m :: ms =>
    match kwLookup m.kwargs "link_type", m.args.head?, kwLookup m.kwargs "name" with
    | some lt, some url, some nm => (collectLinks ms).map (fun r => (lt, url, nm) :: r)
    | _, _, _ => none

/-- `allure_links(item)` (the generator, collected into a list). -/
def allure_links (item : Item) : Option (List (String × String × String)) :=
  collectLinks (linkMarks item)

/-- `str.split(sep)` for a non-empty separator, structurally (fuelled by the
string length; every step consumes at least one character). -/
def splitOnSepAux (sep : List Char) : Nat → List Char → List Char → List (List Char)
  | _, [], acc => [acc.reverse]
  | 0, c :: cs, acc => [acc.reverse ++ c :: cs]
  | fuel + 1, c :: cs, acc =>
    if sep.isPrefixOf (c :: cs) then
      acc.reverse :: splitOnSepAux sep fuel (List.drop (sep.length - 1) cs) []
    else splitOnSepAux sep fuel cs (c :: acc)

/-- `str.split(sep)`; the module only calls it with the non-empty separators
`"::"` and `"."` (Python raises on an empty separator, never reached). -/
def splitOnSep (s sep : String) : List String :=
  if sep = "" then [s]
  else (splitOnSepAux sep.data s.data.length s.data []).map String.mk

/-- `str.startswith(p)`. -/
def startsWithStr (s p : String) : Bool := p.data.isPrefixOf s.data

/-- Modelled from the spec: the generic `represent` formatter of
`allure_commons.utils` (a collaborator outside `src/`, out of scope in the
spec), rendering a value as its quoted display form. -/
def represent (s : String) : String := "'" ++ s ++ "'"

/-- `mark_to_str(marker)`. -/
def mark_to_str (marker : Mark) : String :=
  let args := marker.args.map represent
  let kwargs := marker.kwargs.map (fun kv => kv.1 ++ "=" ++ represent kv.2)
  let markstr :=
    if marker.name ∈ ["filterwarnings", "skip", "skipif", "xfail", "usefixtures",
                      "tryfirst", "trylast"]
    then "@pytest.mark." ++ marker.name
    else marker.name
  if args ≠ [] ∨ kwargs ≠ [] then
    markstr ++ "(" ++ String.intercalate ", " (args ++ kwargs) ++ ")"
  else markstr

/-- `pytest_markers(item)` (the generator, collected into a list):
keywords in the `allure_` namespace or named `parametrize` are skipped,
keywords with no closest marker are skipped, the rest are rendered. -/
def pytest_markers (item : Item) : List String :=
  item.keywords.filterMap (fun keyword =>
    if startsWithStr keyword "allure_" || keyword == "parametrize" then none
    else
      match get_closest_marker item keyword with
      | none => none
      | some marker => some (mark_to_str marker))

/-- `s.rsplit(c, 1)`: split at the last occurrence of `c`; a one- or
two-element list, like the Python original. -/
def rsplitOnceAux : List Char → Char → List Char → Option (List Char × List Char)
  | [], _, _ => none
  | x :: xs, c, acc =>
    if x = c then some (xs.reverse, acc) else rsplitOnceAux xs c (x :: acc)

def rsplitOnce (s : String) (c : Char) : List String :=
  match rsplitOnceAux s.data.reverse c [] with
  | none => [s]
  | some (before, after) => [String.mk before, String.mk after]

/-- `str.replace('/', '.')` (single-character pattern). -/
def replaceSlashDot (s : String) : String :=
  String.mk (s.data.map (fun c => if c = '/' then '.' else c))

/-- Byte of the lowercase hex digit for `n < 16`. -/
def hexDigitChar (n : Nat) : Nat :=
  if n < 10 then 48 + n else 87 + n

/-- The two hex-digit bytes of `%02x` (used by `backslashreplace` for `\xHH`). -/
def hexBytes2 (n : Nat) : List Nat :=
  [hexDigitChar (n / 16 % 16), hexDigitChar (n % 16)]

/-- The four hex-digit bytes of `%04x` (used by `backslashreplace` for `\uHHHH`). -/
def hexBytes4 (n : Nat) : List Nat :=
  [hexDigitChar (n / 4096 % 16), hexDigitChar (n / 256 % 16),
   hexDigitChar (n / 16 % 16), hexDigitChar (n % 16)]

/-- The eight hex-digit bytes of `%08x` (used by `backslashreplace` for
`\UHHHHHHHH`). -/
def hexBytes8 (n : Nat) : List Nat :=
  [hexDigitChar (n / 268435456 % 16), hexDigitChar (n / 16777216 % 16),
   hexDigitChar (n / 1048576 % 16), hexDigitChar (n / 65536 % 16),
   hexDigitChar (n / 4096 % 16), hexDigitChar (n / 256 % 16),
   hexDigitChar (n / 16 % 16), hexDigitChar (n % 16)]

/-- `char.encode('ascii', 'backslashreplace')` for a single character: an
ASCII character is its own byte; any other character becomes the bytes of
its `\xHH` / `\uHHHH` / `\UHHHHHHHH` escape. -/
def bsrChar (c : Char) : List Nat :=
  if c.toNat < 128 then [c.toNat]
  else if c.toNat ≤ 255 then 92 :: 120 :: hexBytes2 c.toNat
  else if c.toNat ≤ 65535 then 92 :: 117 :: hexBytes4 c.toNat
  else 92 :: 85 :: hexBytes8 c.toNat

/-- `name.encode('ascii', 'backslashreplace')`: the byte string, as a list
of byte values. -/
def encodeAsciiBackslashreplace (s : String) : List Nat :=
  (s.data.map bsrChar).flatten

/-- Value of a hex-digit byte (Python accepts both cases). -/
def hexVal (b : Nat) : Option Nat :=
  if 48 ≤ b ∧ b ≤ 57 then some (b - 48)
  else if 97 ≤ b ∧ b ≤ 102 then some (b - 87)
  else if 65 ≤ b ∧ b ≤ 70 then some (b - 55)
  else none

/-- Value of an octal-digit byte. -/
def octVal (b : Nat) : Option Nat :=
  if 48 ≤ b ∧ b ≤ 55 then some (b - 48) else none

/-- Big-endian parse of exactly `k` hex-digit bytes; `none` on a missing or
non-hex byte (Python raises on a malformed `\\xHH`/`\\uHHHH`/`\\UHHHHHHHH`). -/
def parseHexN : Nat → List Nat → Option (Nat × List Nat)
  | 0, bs => some (0, bs)
  | _ + 1, [] => none
  | k + 1, b :: bs =>
    match hexVal b with
    | none => none
    | some v => (parseHexN k bs).map (fun p => (v * 16 ^ k + p.1, p.2))

/-- Continue an octal escape after its first digit: up to two more octal
digits are consumed. -/
def parseOct (d1 : Nat) : List Nat → Nat × List Nat
  | [] => (d1, [])
  | r2 :: rs =>
    match octVal r2 with
    | none => (d1, r2 :: rs)
    | some d2 =>
      match rs with
      | [] => (d1 * 8 + d2, [])
      | r3 :: rs2 =>
        match octVal r3 with
        | none => (d1 * 8 + d2, r3 :: rs2)
        | some d3 => (d1 * 64 + d2 * 8 + d3, rs2)

/-- The single-character escapes of `unicode_escape`
(`\\`, `\'`, `\"`, `\a`, `\b`, `\f`, `\n`, `\r`, `\t`, `\v`). -/
def simpleEsc (e : Nat) : Option Nat :=
  if e = 92 then some 92
  else if e = 39 then some 39
  else if e = 34 then some 34
  else if e = 97 then some 7
  else if e = 98 then some 8
  else if e = 102 then some 12
  else if e = 110 then some 10
  else if e = 114 then some 13
  else if e = 116 then some 9
  else if e = 118 then some 11
  else none

/-- Handle the bytes after a backslash: the emitted characters and the
remaining bytes.  `none` models a `UnicodeDecodeError`/`ValueError`
(trailing backslash, malformed `\xHH`, out-of-range `\UHHHHHHHH`); the
escapes of lone surrogates, which Python can represent but a Unicode
scalar string cannot, and the `\N{name}` named-character escape are not
modelled and also yield `none`.  An unknown escape keeps the backslash
and the escape byte, as in Python. -/
def escapeStep (bs : List Nat) : Option (List Char × List Nat) :=
  match bs with
  | [] => none
  | e :: rest =>
    if e = 10 then some ([], rest)
    else
      match simpleEsc e with
      | some code => some ([Char.ofNat code], rest)
      | none =>
        match octVal e with
        | some d1 =>
          let p := parseOct d1 rest
          some ([Char.ofNat p.1], p.2)
        | none =>
          if e = 120 then
            match parseHexN 2 rest with
            | some (n, rs) => some ([Char.ofNat n], rs)
            | none => none
          else if e = 117 then
            match parseHexN 4 rest with
            | some (n, rs) => if n.isValidChar then some ([Char.ofNat n], rs) else none
            | none => none
          else if e = 85 then
            match parseHexN 8 rest with
            | some (n, rs) => if n.isValidChar then some ([Char.ofNat n], rs) else none
            | none => none
          else if e = 78 then none
          else some ([Char.ofNat 92, Char.ofNat e], rest)

/-- `bytes.decode('unicode_escape')`, fuelled (the fuel bounds the number of
decoding steps; every step consumes at least one byte, so the byte count is
enough fuel).  A non-backslash byte is its own (latin-1) character; a
backslash starts an escape, handled by `escapeStep`. -/
def decodeUEAux : Nat → List Nat → Option (List Char)
  | _, [] => some []
  | 0, _ :: _ => none
  | fuel + 1, b :: bs =>
    if b = 92 then
      match escapeStep bs with
      | none => none
      | some (cs, rest) => (decodeUEAux fuel rest).map (fun tail => cs ++ tail)
    else (decodeUEAux fuel bs).map (fun tail => Char.ofNat b :: tail)

/-- `bytes.decode('unicode_escape')`. -/
def decodeUnicodeEscape (bs : List Nat) : Option (List Char) :=
  decodeUEAux bs.length bs

/-- `escape_name(name)` on Python 3 (`six.PY2` is false, so the PY2 branch is
skipped): `name.encode('ascii', 'backslashreplace').decode('unicode_escape')`;
`none` models a raised decoding error. -/
def escape_name (name : String) : Option String :=
  (decodeUnicodeEscape (encodeAsciiBackslashreplace name)).map (fun cs => String.mk cs)

/-- `allure_package(item)`. -/
def allure_package (item : Item) : String :=
  let parts := splitOnSep item.nodeid "::"
  let path := (rsplitOnce (parts.headD "") '.').headD ""
  replaceSlashDot path

/-- `allure_full_name(item)`; the final `escape_name` may fail (see
`escape_name`), hence the `Option`. -/
def allure_full_name (item : Item) : Option String :=
  let parts := splitOnSep item.nodeid "::"
  let package := allure_package item
  let clazz := if parts.length > 2 then "." ++ parts.getD 1 "" else ""
  let test_with_params := parts.getLastD ""
  let test := (rsplitOnce test_with_params '[').headD ""
  escape_name (package ++ clazz ++ "#" ++ test)

/-- The pure part of `allure_suite_labels(item)`: the default suite labels
derived from the node id, filtered against the keys of the item's explicit
label set.  `islice(chain(...), ...)` padding is modelled with `Option`,
and Python truthiness of `tail`, `path` and `value` with emptiness tests. -/
def default_suite_labels (nodeid : String) (labelKeys : Finset String) :
    List (String × String) :=
  let parts := splitOnSep nodeid "::"
  let head := parts.headD ""
  let possibly_clazz := parts[1]?
  let tail := parts[2]?
  let clazz : Option String :=
    match tail with
    | some t => if t ≠ "" then possibly_clazz else none
    | none => none
  let rev := (rsplitOnce head '/').reverse
  let file_name := rev.headD ""
  let path := rev[1]?
  let module := (splitOnSep file_name ".").headD ""
  let package : Option String :=
    match path with
    | some p => if p ≠ "" then some (replaceSlashDot p) else none
    | none => none
  let pairs : List (String × Option String) :=
    [(LabelType.PARENT_SUITE, package), (LabelType.SUITE, some module),
     (LabelType.SUB_SUITE, clazz)]
  pairs.filterMap (fun lv =>
    match lv.2 with
    | some v => if lv.1 ∉ labelKeys ∧ v ≠ "" then some (lv.1, v) else none
    | none => none)

/-- `allure_suite_labels(item)`: `none` propagates a failure of
`allure_labels`. -/
def allure_suite_labels (item : Item) : Option (List (String × String)) :=
  (allure_labels item).map (fun labs =>
    default_suite_labels item.nodeid (labs.image Prod.fst))

/-- `get_status(exception)`: the exception is modelled by which `isinstance`
checks it satisfies; `none` is an absent exception. -/
inductive Status where
  | passed
  | failed
  | skipped
  | broken
deriving DecidableEq

structure PyException where
  isAssertionError : Bool
  isPytestFailExc : Bool
  isPytestSkipExc : Bool
deriving DecidableEq

def get_status : Option PyException → Status
  | none => Status.passed
  | some e =>
    if e.isAssertionError || e.isPytestFailExc then Status.failed
    else if e.isPytestSkipExc then Status.skipped
    else Status.broken

/-- `StatusDetails` from `allure_commons.model2` (outside `src/`): an
optional message/trace pair. -/
structure StatusDetails where
  message : String
  trace : String
deriving DecidableEq

/-- `get_status_details`: the external collaborators `format_exception`,
`format_traceback` and `escape_non_unicode_symbols` (from `allure_commons`,
outside `src/`) are abstracted by taking their results — the formatted
`message` and `trace` strings — as inputs; the module then returns
`StatusDetails(message=message, trace=trace) if message or trace else None`. -/
def get_status_details (message trace : String) : Option StatusDetails :=
  if message ≠ "" ∨ trace ≠ "" then some ⟨message, trace⟩ else none

/-- `get_pytest_report_status(pytest_report)`: the report flags, checked in
the fixed order failed, passed, skipped; `none` when no flag is set. -/
structure PytestReport where
  failed : Bool
  passed : Bool
  skipped : Bool
deriving DecidableEq

def get_pytest_report_status (r : PytestReport) : Option Status :=
  if r.failed then some Status.failed
  else if r.passed then some Status.passed
  else if r.skipped then some Status.skipped
  else none


/-! ### Lemmas about `escape_name` -/

theorem decodeUEAux_nil (fuel : Nat) : decodeUEAux fuel [] = some [] := by
  cases fuel <;> rfl

theorem decodeUEAux_raw (fuel b : Nat) (rest : List Nat) (hb : b ≠ 92) :
    decodeUEAux (fuel + 1) (b :: rest) =
      (decodeUEAux fuel rest).map (fun cs => Char.ofNat b :: cs) := by
  simp [decodeUEAux, hb]

theorem hexVal_hexDigitChar (n : Nat) (h : n < 16) :
    hexVal (hexDigitChar n) = some n := by
  by_cases h10 : n < 10
  · rw [hexDigitChar, if_pos h10, hexVal, if_pos (by omega)]
    congr 1
    omega
  · rw [hexDigitChar, if_neg h10, hexVal, if_neg (by omega), if_pos (by omega)]
    congr 1
    omega

theorem escapeStep_x (d1 d0 : Nat) (rest : List Nat) (h1 : d1 < 16) (h0 : d0 < 16) :
    escapeStep (120 :: hexDigitChar d1 :: hexDigitChar d0 :: rest) =
      some ([Char.ofNat (d1 * 16 + d0)], rest) := by
  simp [escapeStep, simpleEsc, octVal, parseHexN,
    hexVal_hexDigitChar d1 h1, hexVal_hexDigitChar d0 h0]

theorem escapeStep_u (d3 d2 d1 d0 : Nat) (rest : List Nat)
    (h3 : d3 < 16) (h2 : d2 < 16) (h1 : d1 < 16) (h0 : d0 < 16)
    (hv : Nat.isValidChar (((d3 * 16 + d2) * 16 + d1) * 16 + d0)) :
    escapeStep (117 :: hexDigitChar d3 :: hexDigitChar d2 ::
        hexDigitChar d1 :: hexDigitChar d0 :: rest) =
      some ([Char.ofNat (((d3 * 16 + d2) * 16 + d1) * 16 + d0)], rest) := by
  simp only [escapeStep, simpleEsc, octVal, parseHexN,
    hexVal_hexDigitChar d3 h3, hexVal_hexDigitChar d2 h2,
    hexVal_hexDigitChar d1 h1, hexVal_hexDigitChar d0 h0]
  norm_num
  rw [show d3 * 4096 + (d2 * 256 + (d1 * 16 + d0)) =
      ((d3 * 16 + d2) * 16 + d1) * 16 + d0 from by ring]
  exact ⟨hv, rfl⟩

theorem decodeUEAux_esc (fuel : Nat) (bs cs' : List Nat) (out : List Char)
    (h : escapeStep bs = some (out, cs')) :
    decodeUEAux (fuel + 1) (92 :: bs) =
      (decodeUEAux fuel cs').map (fun tail => out ++ tail) := by
  simp [decodeUEAux, h]

theorem escapeStep_U (d7 d6 d5 d4 d3 d2 d1 d0 : Nat) (rest : List Nat)
    (h7 : d7 < 16) (h6 : d6 < 16) (h5 : d5 < 16) (h4 : d4 < 16)
    (h3 : d3 < 16) (h2 : d2 < 16) (h1 : d1 < 16) (h0 : d0 < 16)
    (hv : Nat.isValidChar
      (((((((d7 * 16 + d6) * 16 + d5) * 16 + d4) * 16 + d3) * 16 + d2) * 16 + d1) * 16 + d0)) :
    escapeStep (85 :: hexDigitChar d7 :: hexDigitChar d6 :: hexDigitChar d5 ::
        hexDigitChar d4 :: hexDigitChar d3 :: hexDigitChar d2 ::
        hexDigitChar d1 :: hexDigitChar d0 :: rest) =
      some ([Char.ofNat
        (((((((d7 * 16 + d6) * 16 + d5) * 16 + d4) * 16 + d3) * 16 + d2) * 16 + d1) * 16 + d0)],
        rest) := by
  simp only [escapeStep, simpleEsc, octVal, parseHexN,
    hexVal_hexDigitChar d7 h7, hexVal_hexDigitChar d6 h6,
    hexVal_hexDigitChar d5 h5, hexVal_hexDigitChar d4 h4,
    hexVal_hexDigitChar d3 h3, hexVal_hexDigitChar d2 h2,
    hexVal_hexDigitChar d1 h1, hexVal_hexDigitChar d0 h0]
  norm_num
  rw [show d7 * 268435456 + (d6 * 16777216 + (d5 * 1048576 + (d4 * 65536 +
      (d3 * 4096 + (d2 * 256 + (d1 * 16 + d0)))))) =
      ((((((d7 * 16 + d6) * 16 + d5) * 16 + d4) * 16 + d3) * 16 + d2) * 16 + d1) * 16 + d0
      from by ring]
  exact ⟨hv, rfl⟩

theorem char_toNat_valid (c : Char) : Nat.isValidChar c.toNat := c.valid

theorem char_toNat_lt (c : Char) : c.toNat < 1114112 := by
  rcases char_toNat_valid c with h | h <;> omega

theorem decodeUEAux_bsr (cs : List Char) (hbs : ∀ c ∈ cs, c ≠ '\\') :
    ∀ fuel, ((cs.map bsrChar).flatten).length ≤ fuel →
      decodeUEAux fuel ((cs.map bsrChar).flatten) = some cs := by
  induction cs with
  | nil =>
    intro fuel _
    simpa using decodeUEAux_nil fuel
  | cons c cs ih =>
    intro fuel hlen
    have hc : c ≠ '\\' := hbs c (List.mem_cons_self c cs)
    have hcs : ∀ c' ∈ cs, c' ≠ '\\' := fun c' h' => hbs c' (List.mem_cons_of_mem c h')
    rw [List.map_cons, List.flatten_cons] at hlen ⊢
    have hpos : 0 < (bsrChar c).length := by
      rw [bsrChar]; split_ifs <;> simp [hexBytes2, hexBytes4, hexBytes8]
    obtain ⟨f, rfl⟩ : ∃ f, fuel = f + 1 := by
      cases fuel with
      | zero => exfalso; rw [List.length_append] at hlen; omega
      | succ f => exact ⟨f, rfl⟩
    have hrest : ((cs.map bsrChar).flatten).length ≤ f := by
      rw [List.length_append] at hlen; omega
    by_cases hA : c.toNat < 128
    · have hb : bsrChar c = [c.toNat] := by rw [bsrChar, if_pos hA]
      have hne : c.toNat ≠ 92 := by
        intro h
        apply hc
        rw [← Char.ofNat_toNat c, h]
      rw [hb, List.singleton_append, decodeUEAux_raw f c.toNat _ hne, ih hcs f hrest]
      simp [Char.ofNat_toNat]
    · by_cases hB : c.toNat ≤ 255
      · have hb : bsrChar c = 92 :: 120 :: hexDigitChar (c.toNat / 16 % 16) ::
            hexDigitChar (c.toNat % 16) :: [] := by
          rw [bsrChar, if_neg (by omega), if_pos hB]; rfl
        rw [hb, List.cons_append, List.cons_append, List.cons_append, List.cons_append,
          List.nil_append,
          decodeUEAux_esc f _ _ _ (escapeStep_x _ _ _ (by omega) (by omega)),
          show c.toNat / 16 % 16 * 16 + c.toNat % 16 = c.toNat from by omega,
          ih hcs f hrest]
        simp [Char.ofNat_toNat]
      · by_cases hC : c.toNat ≤ 65535
        · have hb : bsrChar c = 92 :: 117 :: hexDigitChar (c.toNat / 4096 % 16) ::
              hexDigitChar (c.toNat / 256 % 16) :: hexDigitChar (c.toNat / 16 % 16) ::
              hexDigitChar (c.toNat % 16) :: [] := by
            rw [bsrChar, if_neg (by omega), if_neg (by omega), if_pos hC]; rfl
          have hrecon : ((c.toNat / 4096 % 16 * 16 + c.toNat / 256 % 16) * 16 +
              c.toNat / 16 % 16) * 16 + c.toNat % 16 = c.toNat := by omega
          rw [hb]
          simp only [List.cons_append, List.nil_append]
          rw [decodeUEAux_esc f _ _ _
              (escapeStep_u _ _ _ _ _ (by omega) (by omega) (by omega) (by omega)
                (by rw [hrecon]; exact char_toNat_valid c)),
            hrecon, ih hcs f hrest]
          simp [Char.ofNat_toNat]
        · have hD : c.toNat < 1114112 := char_toNat_lt c
          have hb : bsrChar c = 92 :: 85 :: hexDigitChar (c.toNat / 268435456 % 16) ::
              hexDigitChar (c.toNat / 16777216 % 16) :: hexDigitChar (c.toNat / 1048576 % 16) ::
              hexDigitChar (c.toNat / 65536 % 16) :: hexDigitChar (c.toNat / 4096 % 16) ::
              hexDigitChar (c.toNat / 256 % 16) :: hexDigitChar (c.toNat / 16 % 16) ::
              hexDigitChar (c.toNat % 16) :: [] := by
            rw [bsrChar, if_neg (by omega), if_neg (by omega), if_neg (by omega)]; rfl
          have hrecon : ((((((c.toNat / 268435456 % 16 * 16 + c.toNat / 16777216 % 16) * 16 +
              c.toNat / 1048576 % 16) * 16 + c.toNat / 65536 % 16) * 16 +
              c.toNat / 4096 % 16) * 16 + c.toNat / 256 % 16) * 16 +
              c.toNat / 16 % 16) * 16 + c.toNat % 16 = c.toNat := by omega
          rw [hb]
          simp only [List.cons_append, List.nil_append]
          rw [decodeUEAux_esc f _ _ _
              (escapeStep_U _ _ _ _ _ _ _ _ _ (by omega) (by omega) (by omega) (by omega)
                (by omega) (by omega) (by omega) (by omega)
                (by rw [hrecon]; exact char_toNat_valid c)),
            hrecon, ih hcs f hrest]
          simp [Char.ofNat_toNat]

/-- Claim C1 (amended): for every input containing no backslash character
(in particular every printable-ASCII input without a backslash, and also
inputs with non-ASCII characters), `escape_name` returns the input
unchanged: the `backslashreplace` escapes introduced for non-ASCII
characters are decoded straight back by the `unicode_escape` step. -/
theorem escape_name_no_backslash (s : String) (h : ∀ c ∈ s.data, c ≠ '\\') :
    escape_name s = some s := by
  rw [escape_name, decodeUnicodeEscape, encodeAsciiBackslashreplace,
    decodeUEAux_bsr s.data h _ le_rfl]
  rfl

/-- Claim C1 (counterexample): the claim is false on both sides.  The input
`\n` (backslash then `n`) consists only of printable ASCII characters but is
not returned unchanged (the decode step turns it into a newline), and the
input `é` contains a non-ASCII character but is returned unchanged, so the
result still contains a raw non-ASCII character. -/
theorem escape_name_claim_counterexample :
    ((∀ c ∈ "\\n".data, 32 ≤ c.toNat ∧ c.toNat ≤ 126) ∧
      escape_name "\\n" ≠ some "\\n" ∧ escape_name "\\n" = some "\n") ∧
    ((∃ c ∈ "é".data, 128 ≤ c.toNat) ∧ escape_name "é" = some "é") :=
  ⟨⟨by decide, by decide, by decide⟩, ⟨by decide, by decide⟩⟩

/-- Witness for the amended claim C1 at the concrete input `café`. -/
theorem escape_name_no_backslash_witness : escape_name "café" = some "café" :=
  escape_name_no_backslash "café" (by decide)

/-! ### Status derivation (claims C4, C8) -/

/-- Claim C4: an absent exception yields PASSED; an assertion failure or the
explicit-failure exception yields FAILED (also when the skip check would
match, since the checks form a priority list); the explicit-skip exception
yields SKIPPED when the failure checks do not match; any other exception
yields BROKEN. -/
theorem get_status_spec :
    get_status none = Status.passed ∧
    (∀ e : PyException, e.isAssertionError = true ∨ e.isPytestFailExc = true →
      get_status (some e) = Status.failed) ∧
    (∀ e : PyException, e.isAssertionError = false → e.isPytestFailExc = false →
      e.isPytestSkipExc = true → get_status (some e) = Status.skipped) ∧
    (∀ e : PyException, e.isAssertionError = false → e.isPytestFailExc = false →
      e.isPytestSkipExc = false → get_status (some e) = Status.broken) := by
  refine ⟨rfl, fun e he => ?_, fun e h1 h2 h3 => ?_, fun e h1 h2 h3 => ?_⟩ <;>
    simp [get_status, *]

/-- Witness for claim C4: the four statuses at concrete exceptions,
including the priority case of an assertion error that is also a skip
exception. -/
theorem get_status_spec_witness :
    get_status (some ⟨true, false, true⟩) = Status.failed ∧
    get_status (some ⟨false, false, true⟩) = Status.skipped ∧
    get_status (some ⟨false, false, false⟩) = Status.broken :=
  ⟨get_status_spec.2.1 ⟨true, false, true⟩ (Or.inl rfl),
   get_status_spec.2.2.1 ⟨false, false, true⟩ rfl rfl rfl,
   get_status_spec.2.2.2 ⟨false, false, false⟩ rfl rfl rfl⟩

/-- Claim C8: when the formatted message and trace are both empty the result
is absent (not an empty details object); otherwise it is a details object
carrying both fields, either of which may independently be empty. -/
theorem get_status_details_spec (message trace : String) :
    (message = "" ∧ trace = "" → get_status_details message trace = none) ∧
    (message ≠ "" ∨ trace ≠ "" →
      get_status_details message trace = some ⟨message, trace⟩) := by
  constructor
  · rintro ⟨h1, h2⟩
    simp [get_status_details, h1, h2]
  · intro h
    rw [get_status_details, if_pos h]

/-- Witness for claim C8 at concrete formatted strings. -/
theorem get_status_details_spec_witness :
    get_status_details "" "" = none ∧
    get_status_details "boom" "" = some ⟨"boom", ""⟩ :=
  ⟨(get_status_details_spec "" "").1 ⟨rfl, rfl⟩,
   (get_status_details_spec "boom" "").2 (Or.inl (by decide))⟩

/-! ### Full name derivation (claim C5) -/

/-- Claim C5: for the node id `pkg/mod.py::Clazz::test_x[1]`,
`allure_full_name` returns `escape_name "pkg.mod.Clazz#test_x"`: the
package is the id up to the first `::` with the extension stripped and
slashes replaced by dots, the class segment is included since there are
more than two `::`-separated parts, and the `[...]` suffix is stripped. -/
theorem allure_full_name_example (item : Item)
    (h : item.nodeid = "pkg/mod.py::Clazz::test_x[1]") :
    allure_full_name item = escape_name "pkg.mod.Clazz#test_x" := by
  rw [allure_full_name, allure_package, h]
  rfl

/-- Witness for claim C5 at a concrete item. -/
theorem allure_full_name_example_witness :
    allure_full_name ⟨"pkg/mod.py::Clazz::test_x[1]", "test_x[1]", [], [], none⟩ =
      escape_name "pkg.mod.Clazz#test_x" :=
  allure_full_name_example ⟨"pkg/mod.py::Clazz::test_x[1]", "test_x[1]", [], [], none⟩ rfl

/-! ### Description extraction (claim C9) -/

/-- Claim C9 (counterexample): an item carrying an `allure_description`
annotation whose first argument is the empty string, together with an
underlying function docstring: the description annotation is present, yet
`allure_description` returns the docstring, not the annotation's first
argument (the code tests Python truthiness, not presence). -/
theorem allure_description_claim_counterexample :
    get_marker_value
        ⟨"t.py::test_a", "test_a", [⟨"allure_description", [""], []⟩], [],
          some ⟨some "Docstring."⟩⟩
        ALLURE_DESCRIPTION_MARK = some "" ∧
    allure_description
        ⟨"t.py::test_a", "test_a", [⟨"allure_description", [""], []⟩], [],
          some ⟨some "Docstring."⟩⟩ = some "Docstring." ∧
    (some "Docstring." : Option String) ≠ some "" :=
  ⟨by decide, by decide, by decide⟩

/-- Claim C9 (amended): `allure_description` returns the first argument of
the nearest `allure_description` annotation if present and non-empty;
otherwise (no annotation, no positional argument, or an empty-string
argument) it returns the underlying function's docstring when the item
exposes a function, else an absent value. -/
theorem allure_description_spec (item : Item) :
    (∀ d, get_marker_value item ALLURE_DESCRIPTION_MARK = some d → d ≠ "" →
      allure_description item = some d) ∧
    ((∀ d, get_marker_value item ALLURE_DESCRIPTION_MARK = some d → d = "") →
      allure_description item = item.function.bind FunctionInfo.doc) := by
  constructor
  · intro d hd hne
    rw [allure_description]
    simp only [hd]
    rw [if_pos (by simp [truthyOpt, hne])]
  · intro hall
    rw [allure_description]
    have hf : truthyOpt (get_marker_value item ALLURE_DESCRIPTION_MARK) = false := by
      cases hv : get_marker_value item ALLURE_DESCRIPTION_MARK with
      | none => rfl
      | some d => simp [truthyOpt, hall d hv]
    rw [if_neg (by simp [hf])]
    cases item.function <;> rfl

/-- Witness for the amended claim C9: both branches at concrete items. -/
theorem allure_description_spec_witness :
    allure_description
        ⟨"t.py::test_a", "test_a", [⟨"allure_description", ["hello"], []⟩], [], none⟩ =
      some "hello" ∧
    allure_description ⟨"t.py::test_a", "test_a", [], [], some ⟨some "Doc."⟩⟩ =
      some "Doc." :=
  ⟨(allure_description_spec
      ⟨"t.py::test_a", "test_a", [⟨"allure_description", ["hello"], []⟩], [], none⟩).1
      "hello" (by decide) (by decide),
   by
    have h := (allure_description_spec
      ⟨"t.py::test_a", "test_a", [], [], some ⟨some "Doc."⟩⟩).2 (by decide)
    simpa using h⟩

/-! ### Suite labels (claims C6, C7) -/

/-- Claim C6: for an item whose node id is `pkg/mod.py::test_x` (no class
segment) and which carries no explicit labels, `allure_suite_labels`
returns exactly the parent-suite and suite entries, in order, with no
sub-suite entry. -/
theorem allure_suite_labels_no_class (item : Item)
    (hid : item.nodeid = "pkg/mod.py::test_x")
    (hnm : ∀ m ∈ item.markers, m.name ≠ ALLURE_LABEL_MARK) :
    allure_suite_labels item =
      some [(LabelType.PARENT_SUITE, "pkg"), (LabelType.SUITE, "mod")] := by
  have h1 : labelMarks item = [] := by
    rw [labelMarks, iter_markers, List.filter_eq_nil_iff]
    intro m hm
    simpa using hnm m hm
  have h2 : allure_labels item = some (∅ ∪ ([] : List (String × String)).toFinset) := by
    rw [allure_labels, h1]
    rfl
  rw [allure_suite_labels, h2, Option.map_some', hid]
  decide

/-- Witness for claim C6 at a concrete item. -/
theorem allure_suite_labels_no_class_witness :
    allure_suite_labels ⟨"pkg/mod.py::test_x", "test_x", [], [], none⟩ =
      some [(LabelType.PARENT_SUITE, "pkg"), (LabelType.SUITE, "mod")] :=
  allure_suite_labels_no_class ⟨"pkg/mod.py::test_x", "test_x", [], [], none⟩ rfl
    (by decide)

/-- Every derived suite label has a kind outside the explicit label keys. -/
theorem default_suite_labels_key_not_mem (nodeid : String) (keys : Finset String) :
    ∀ p ∈ default_suite_labels nodeid keys, p.1 ∉ keys := by
  intro p hp
  rw [default_suite_labels] at hp
  simp only [List.mem_filterMap] at hp
  obtain ⟨⟨l, v⟩, _, hlv⟩ := hp
  cases v with
  | none => simp at hlv
  | some s =>
    simp only at hlv
    split_ifs at hlv with hc
    cases hlv
    exact hc.1

/-- Claim C7: when the item carries an explicit label of a suite kind, the
list returned by `allure_suite_labels` contains no derived entry of that
kind, whatever the node id would otherwise contribute. -/
theorem allure_suite_labels_no_override (item : Item)
    (labs : Finset (String × String)) (res : List (String × String)) (k v : String)
    (_hkind : k = LabelType.PARENT_SUITE ∨ k = LabelType.SUITE ∨ k = LabelType.SUB_SUITE)
    (hlab : allure_labels item = some labs)
    (hmem : (k, v) ∈ labs)
    (hres : allure_suite_labels item = some res) :
    k ∉ res.map Prod.fst := by
  rw [allure_suite_labels, hlab, Option.map_some'] at hres
  have hres' : res = default_suite_labels item.nodeid (labs.image Prod.fst) :=
    (Option.some.inj hres).symm
  intro hk
  obtain ⟨p, hp, hpk⟩ := List.mem_map.mp hk
  have hnot := default_suite_labels_key_not_mem item.nodeid (labs.image Prod.fst) p
    (hres' ▸ hp)
  exact hnot (hpk ▸ Finset.mem_image_of_mem Prod.fst hmem)

/-- Witness for claim C7: an explicit `suite` label suppresses the derived
`suite` entry even though the module name `mod` would otherwise qualify. -/
theorem allure_suite_labels_no_override_witness :
    LabelType.SUITE ∉
      ([(LabelType.PARENT_SUITE, "pkg")] : List (String × String)).map Prod.fst :=
  allure_suite_labels_no_override
    ⟨"pkg/mod.py::test_x", "test_x",
      [⟨"allure_label", ["custom"], [("label_type", "suite")]⟩], [], none⟩
    {("suite", "custom")} [(LabelType.PARENT_SUITE, "pkg")] LabelType.SUITE "custom"
    (Or.inr (Or.inl rfl)) (by decide) (by decide) (by decide)

/-! ### Totality of the extraction functions (claim C2) -/

/-- Well-formedness of an `allure_label` marker as produced by the allure
decorators (normal host behavior): it has a `label_type` kwarg, and a
unique-kind marker has at least one positional argument. -/
def labelMarkOk (m : Mark) : Bool :=
  match markLabelType m with
  | none => false
  | some lt => !(ALLURE_UNIQUE_LABELS.contains lt) || !m.args.isEmpty

/-- Well-formedness of an `allure_link` marker as produced by the allure
decorators: `link_type` and `name` kwargs and a positional argument. -/
def linkMarkOk (m : Mark) : Bool :=
  (kwLookup m.kwargs "link_type").isSome && !m.args.isEmpty &&
    (kwLookup m.kwargs "name").isSome

/-- A well-formed label marker is processed without error. -/
theorem processLabelMark_isSome (uniq : List (String × String))
    (labs : Finset (String × String)) (m : Mark) (hm : labelMarkOk m = true) :
    ∃ u l, processLabelMark uniq labs m = some (u, l) := by
  rw [processLabelMark]
  cases hlt : markLabelType m with
  | none => rw [labelMarkOk, hlt] at hm; cases hm
  | some lt =>
    simp only
    by_cases hu : lt ∈ ALLURE_UNIQUE_LABELS
    · rw [if_pos hu]
      by_cases hk : hasKey uniq lt = true
      · rw [if_pos hk]; exact ⟨_, _, rfl⟩
      · rw [if_neg hk]
        cases hargs : m.args with
        | nil =>
          exfalso
          rw [labelMarkOk, hlt, hargs] at hm
          simp [List.contains, List.elem_eq_mem, hu] at hm
        | cons a as => exact ⟨_, _, rfl⟩
    · rw [if_neg hu]; exact ⟨_, _, rfl⟩

/-- The label loop succeeds on well-formed markers. -/
theorem collectLabels_isSome (ms : List Mark) :
    ∀ (uniq : List (String × String)) (labs : Finset (String × String)),
      (∀ m ∈ ms, labelMarkOk m = true) → (collectLabels ms uniq labs).isSome = true := by
  induction ms with
  | nil => intro uniq labs _; rfl
  | cons m ms ih =>
    intro uniq labs h
    obtain ⟨u, l, hul⟩ :=
      processLabelMark_isSome uniq labs m (h m (List.mem_cons_self m ms))
    rw [collectLabels, hul]
    exact ih u l (fun m' hm' => h m' (List.mem_cons_of_mem m hm'))

/-- The link loop succeeds on well-formed markers. -/
theorem collectLinks_isSome (ms : List Mark)
    (h : ∀ m ∈ ms, linkMarkOk m = true) : (collectLinks ms).isSome = true := by
  induction ms with
  | nil => rfl
  | cons m ms ih =>
    have hm := h m (List.mem_cons_self m ms)
    rw [linkMarkOk] at hm
    simp only [Bool.and_eq_true, Option.isSome_iff_exists] at hm
    obtain ⟨⟨⟨lt, hlt⟩, hargs⟩, nm, hnm⟩ := hm
    rw [collectLinks, hlt, hnm]
    cases hargs2 : m.args with
    | nil => rw [hargs2] at hargs; cases hargs
    | cons a as =>
      simp only [List.head?]
      have := ih (fun m' hm' => h m' (List.mem_cons_of_mem m hm'))
      cases hcl : collectLinks ms with
      | none => rw [hcl] at this; cases this
      | some r => rfl

/-- Claim C2: under normal host behavior the extraction functions never
raise: a keyword with no marker makes `get_marker_value` return an absent
value, `allure_labels`/`allure_links` succeed on well-formed markers (as
the allure decorators produce them), and a missing title annotation,
missing description annotation or missing docstring yields an absent
value rather than an error. -/
theorem extraction_never_raises (item : Item) (keyword : String) :
    ((∀ m ∈ item.markers, m.name ≠ keyword) → get_marker_value item keyword = none) ∧
    ((∀ m ∈ labelMarks item, labelMarkOk m = true) →
      (allure_labels item).isSome = true) ∧
    ((∀ m ∈ linkMarks item, linkMarkOk m = true) →
      (allure_links item).isSome = true) ∧
    ((∀ m ∈ item.markers, m.name ≠ ALLURE_DISPLAY_NAME_MARK) →
      allure_title item = none) ∧
    ((∀ m ∈ item.markers, m.name ≠ ALLURE_DESCRIPTION_MARK) →
      (item.function = none ∨ item.function = some ⟨none⟩) →
      allure_description item = none) := by
  have hval : ∀ kw, (∀ m ∈ item.markers, m.name ≠ kw) →
      get_marker_value item kw = none := by
    intro kw hkw
    rw [get_marker_value, get_closest_marker, List.find?_eq_none.mpr]
    · rfl
    · intro m hm
      simpa using hkw m hm
  refine ⟨hval keyword, ?_, ?_, hval ALLURE_DISPLAY_NAME_MARK, ?_⟩
  · intro h
    rw [allure_labels]
    have := collectLabels_isSome (labelMarks item) [] ∅ h
    cases hc : collectLabels (labelMarks item) [] ∅ with
    | none => rw [hc] at this; cases this
    | some ul => rfl
  · intro h
    exact collectLinks_isSome (linkMarks item) h
  · intro h hf
    rw [allure_description, hval ALLURE_DESCRIPTION_MARK h]
    rcases hf with hf | hf <;> rw [hf] <;> rfl

/-- Witness for claim C2 at a concrete item with a label and a link marker. -/
theorem extraction_never_raises_witness :
    get_marker_value
        ⟨"t.py::test_a", "test_a",
          [⟨"allure_label", ["x"], [("label_type", "tag")]⟩,
           ⟨"allure_link", ["http://x"], [("link_type", "link"), ("name", "n")]⟩],
          ["test_a"], some ⟨none⟩⟩ "mymark" = none ∧
    (allure_labels
        ⟨"t.py::test_a", "test_a",
          [⟨"allure_label", ["x"], [("label_type", "tag")]⟩,
           ⟨"allure_link", ["http://x"], [("link_type", "link"), ("name", "n")]⟩],
          ["test_a"], some ⟨none⟩⟩).isSome = true ∧
    (allure_links
        ⟨"t.py::test_a", "test_a",
          [⟨"allure_label", ["x"], [("label_type", "tag")]⟩,
           ⟨"allure_link", ["http://x"], [("link_type", "link"), ("name", "n")]⟩],
          ["test_a"], some ⟨none⟩⟩).isSome = true ∧
    allure_title
        ⟨"t.py::test_a", "test_a",
          [⟨"allure_label", ["x"], [("label_type", "tag")]⟩,
           ⟨"allure_link", ["http://x"], [("link_type", "link"), ("name", "n")]⟩],
          ["test_a"], some ⟨none⟩⟩ = none ∧
    allure_description
        ⟨"t.py::test_a", "test_a",
          [⟨"allure_label", ["x"], [("label_type", "tag")]⟩,
           ⟨"allure_link", ["http://x"], [("link_type", "link"), ("name", "n")]⟩],
          ["test_a"], some ⟨none⟩⟩ = none :=
  ⟨(extraction_never_raises _ "mymark").1 (by decide),
   (extraction_never_raises _ "mymark").2.1 (by decide),
   (extraction_never_raises _ "mymark").2.2.1 (by decide),
   (extraction_never_raises _ "mymark").2.2.2.1 (by decide),
   (extraction_never_raises _ "mymark").2.2.2.2 (by decide) (Or.inr rfl)⟩

/-! ### Rendering of non-allure markers (claim C10) -/

/-- Claim C10: `pytest_markers` yields a rendered string only for keywords
outside the `allure_` namespace, different from `parametrize`, that resolve
to a closest marker; a keyword with no resolvable marker (such as the bare
test name in the keyword mapping) is silently skipped — appending it to the
keywords changes nothing and causes no error. -/
theorem pytest_markers_spec (item : Item) (kw : String)
    (hnomark : ∀ m ∈ item.markers, m.name ≠ kw) :
    pytest_markers ⟨item.nodeid, item.name, item.markers, item.keywords ++ [kw],
        item.function⟩ = pytest_markers item ∧
    ∀ s ∈ pytest_markers item, ∃ k ∈ item.keywords,
      startsWithStr k "allure_" = false ∧ k ≠ "parametrize" ∧
      ∃ mrk, get_closest_marker item k = some mrk ∧ s = mark_to_str mrk := by
  have hfind : get_closest_marker item kw = none := by
    rw [get_closest_marker, List.find?_eq_none]
    intro m hm
    simpa using hnomark m hm
  constructor
  · show List.filterMap (fun keyword =>
        if startsWithStr keyword "allure_" || keyword == "parametrize" then none
        else
          match get_closest_marker item keyword with
          | none => none
          | some marker => some (mark_to_str marker)) (item.keywords ++ [kw]) =
      List.filterMap (fun keyword =>
        if startsWithStr keyword "allure_" || keyword == "parametrize" then none
        else
          match get_closest_marker item keyword with
          | none => none
          | some marker => some (mark_to_str marker)) item.keywords
    rw [List.filterMap_append]
    by_cases hk1 : startsWithStr kw "allure_" = true
    · simp [List.filterMap_cons, hk1]
    · by_cases hk2 : kw = "parametrize"
      · simp [List.filterMap_cons, hk2]
      · simp [List.filterMap_cons, hk1, hk2, hfind]
  · intro s hs
    rw [pytest_markers] at hs
    obtain ⟨k, hk, hfk⟩ := List.mem_filterMap.mp hs
    refine ⟨k, hk, ?_⟩
    by_cases hc : (startsWithStr k "allure_" || k == "parametrize") = true
    · rw [if_pos hc] at hfk
      cases hfk
    · rw [if_neg hc] at hfk
      simp only [Bool.or_eq_true, beq_iff_eq, not_or] at hc
      refine ⟨by simpa using hc.1, hc.2, ?_⟩
      cases hm : get_closest_marker item k with
      | none => rw [hm] at hfk; cases hfk
      | some mrk =>
        rw [hm] at hfk
        exact ⟨mrk, rfl, (Option.some.inj hfk).symm⟩

/-- Witness for claim C10: adding the unresolvable bare test name `test_a`
to the keywords leaves the rendered markers unchanged. -/
theorem pytest_markers_spec_witness :
    pytest_markers
        ⟨"t.py::test_a", "test_a", [⟨"skipif", ["True"], [("reason", "x")]⟩],
          ["skipif", "parametrize"] ++ ["test_a"], none⟩ =
      pytest_markers
        ⟨"t.py::test_a", "test_a", [⟨"skipif", ["True"], [("reason", "x")]⟩],
          ["skipif", "parametrize"], none⟩ :=
  (pytest_markers_spec
    ⟨"t.py::test_a", "test_a", [⟨"skipif", ["True"], [("reason", "x")]⟩],
      ["skipif", "parametrize"], none⟩ "test_a" (by decide)).1

/-! ### Label accumulation (claim C3) -/

/-- The first marker in the list whose `label_type` kwarg equals `k`. -/
def firstLabelMark (ms : List Mark) (k : String) : Option Mark :=
  ms.find? (fun m => markLabelType m == some k)

/-- `firstLabelMark` finds a matching head marker. -/
theorem firstLabelMark_cons_eq (m : Mark) (ms : List Mark) (k : String)
    (h : markLabelType m = some k) : firstLabelMark (m :: ms) k = some m := by
  rw [firstLabelMark]
  apply List.find?_cons_of_pos
  simp [h]

/-- `firstLabelMark` skips a head marker of a different kind. -/
theorem firstLabelMark_cons_ne (m : Mark) (ms : List Mark) (k lt : String)
    (hlt : markLabelType m = some lt) (hne : k ≠ lt) :
    firstLabelMark (m :: ms) k = firstLabelMark ms k := by
  rw [firstLabelMark, firstLabelMark]
  apply List.find?_cons_of_neg
  simp [hlt, Ne.symm hne]

/-- Key membership after appending one binding to the `unique_labels` dict. -/
theorem hasKey_append_single (uniq : List (String × String)) (lt a k : String) :
    hasKey (uniq ++ [(lt, a)]) k = (hasKey uniq k || (lt == k)) := by
  simp [hasKey, List.any_append]

/-- A unique-kind head marker contributes nothing to the non-unique-kind
accumulation. -/
theorem unique_head_exists_iff (m : Mark) (ms : List Mark) (lt : String)
    (hU : lt ∈ ALLURE_UNIQUE_LABELS) (hlt : markLabelType m = some lt)
    (p : String × String) :
    (p.1 ∉ ALLURE_UNIQUE_LABELS ∧
      ∃ m' ∈ m :: ms, markLabelType m' = some p.1 ∧ p.2 ∈ m'.args) ↔
    (p.1 ∉ ALLURE_UNIQUE_LABELS ∧
      ∃ m' ∈ ms, markLabelType m' = some p.1 ∧ p.2 ∈ m'.args) := by
  constructor
  · rintro ⟨hpU, m', hm', hmt, hpa⟩
    rcases List.mem_cons.mp hm' with rfl | hm2
    · have hlp : lt = p.1 := Option.some.inj (hlt.symm.trans hmt)
      exact absurd (hlp ▸ hU) hpU
    · exact ⟨hpU, m', hm2, hmt, hpa⟩
  · rintro ⟨hpU, m', hm', hmt, hpa⟩
    exact ⟨hpU, m', List.mem_cons_of_mem _ hm', hmt, hpa⟩

/-- Invariant of the `allure_labels` loop: the final set holds exactly the
initial set plus one (kind, value) pair per argument of each non-unique-kind
marker, and the final dict holds exactly the initial dict plus, per unique
kind not already keyed, the first argument of the first marker of that
kind. -/
theorem collectLabels_mem (ms : List Mark) :
    ∀ (uniq : List (String × String)) (labs : Finset (String × String))
      (u : List (String × String)) (l : Finset (String × String)),
      collectLabels ms uniq labs = some (u, l) →
      ∀ p : String × String,
        (p ∈ l ↔ p ∈ labs ∨ (p.1 ∉ ALLURE_UNIQUE_LABELS ∧
          ∃ m ∈ ms, markLabelType m = some p.1 ∧ p.2 ∈ m.args)) ∧
        (p ∈ u ↔ p ∈ uniq ∨ (p.1 ∈ ALLURE_UNIQUE_LABELS ∧ hasKey uniq p.1 = false ∧
          ∃ fm, firstLabelMark ms p.1 = some fm ∧ fm.args.head? = some p.2)) := by
  induction ms with
  | nil =>
    intro uniq labs u l h p
    rw [collectLabels] at h
    simp only [Option.some.injEq, Prod.mk.injEq] at h
    obtain ⟨rfl, rfl⟩ := h
    constructor
    · simp
    · simp [firstLabelMark]
  | cons m ms ih =>
    intro uniq labs u l h p
    rw [collectLabels] at h
    cases hpm : processLabelMark uniq labs m with
    | none => rw [hpm] at h; cases h
    | some ul =>
      rw [hpm] at h
      obtain ⟨u1, l1⟩ := ul
      rw [processLabelMark] at hpm
      cases hlt : markLabelType m with
      | none => rw [hlt] at hpm; cases hpm
      | some lt =>
        rw [hlt] at hpm
        simp only at hpm
        by_cases hU : lt ∈ ALLURE_UNIQUE_LABELS
        · rw [if_pos hU] at hpm
          by_cases hk : hasKey uniq lt = true
          · -- duplicate unique kind: state unchanged
            rw [if_pos hk] at hpm
            simp only [Option.some.injEq, Prod.mk.injEq] at hpm
            obtain ⟨rfl, rfl⟩ := hpm
            have IH := ih uniq labs u l h p
            refine ⟨?_, ?_⟩
            · rw [IH.1, unique_head_exists_iff m ms lt hU hlt p]
            · rw [IH.2]
              by_cases hpl : p.1 = lt
              · rw [hpl, hk]
                simp
              · rw [firstLabelMark_cons_ne m ms p.1 lt hlt hpl]
          · -- first occurrence of a unique kind
            rw [if_neg hk] at hpm
            cases hargs : m.args with
            | nil => rw [hargs] at hpm; cases hpm
            | cons a as =>
              rw [hargs] at hpm
              simp only [Option.some.injEq, Prod.mk.injEq] at hpm
              obtain ⟨rfl, rfl⟩ := hpm
              have IH := ih (uniq ++ [(lt, a)]) labs u l h p
              refine ⟨?_, ?_⟩
              · rw [IH.1, unique_head_exists_iff m ms lt hU hlt p]
              · rw [IH.2]
                by_cases hpl : p.1 = lt
                · have h3 : firstLabelMark (m :: ms) p.1 = some m :=
                    hpl ▸ firstLabelMark_cons_eq m ms lt hlt
                  rw [h3, hasKey_append_single, hpl]
                  simp only [List.mem_append, List.mem_singleton, hargs]
                  constructor
                  · rintro ((hin | rfl) | ⟨_, hcontra, _⟩)
                    · exact Or.inl hin
                    · refine Or.inr ⟨hU, ?_, m, rfl, by simp [hargs]⟩
                      cases hq : hasKey uniq lt
                      · rfl
                      · exact absurd hq hk
                    · simp at hcontra
                  · rintro (hin | ⟨_, _, fm, hfm, hhd⟩)
                    · exact Or.inl (Or.inl hin)
                    · obtain rfl := Option.some.inj hfm
                      rw [hargs] at hhd
                      simp only [List.head?_cons, Option.some.injEq] at hhd
                      exact Or.inl (Or.inr (Prod.ext hpl hhd.symm))
                · have h2 : hasKey (uniq ++ [(lt, a)]) p.1 = hasKey uniq p.1 := by
                    rw [hasKey_append_single]
                    have : (lt == p.1) = false := by simp [Ne.symm hpl]
                    rw [this, Bool.or_false]
                  have h1 : p ∈ uniq ++ [(lt, a)] ↔ p ∈ uniq := by
                    simp only [List.mem_append, List.mem_singleton]
                    constructor
                    · rintro (hin | rfl)
                      · exact hin
                      · exact absurd rfl hpl
                    · exact fun hin => Or.inl hin
                  rw [h1, h2, firstLabelMark_cons_ne m ms p.1 lt hlt hpl]
        · -- non-unique kind: accumulate into the set
          rw [if_neg hU] at hpm
          simp only [Option.some.injEq, Prod.mk.injEq] at hpm
          obtain ⟨rfl, rfl⟩ := hpm
          have IH := ih uniq (labs ∪ (m.args.map (fun a => (lt, a))).toFinset) u l h p
          refine ⟨?_, ?_⟩
          · rw [IH.1, Finset.mem_union]
            have hX : p ∈ (m.args.map (fun a => (lt, a))).toFinset ↔
                p.1 = lt ∧ p.2 ∈ m.args := by
              simp only [List.mem_toFinset, List.mem_map]
              constructor
              · rintro ⟨a, ha, rfl⟩
                exact ⟨rfl, ha⟩
              · rintro ⟨hp1, hp2⟩
                exact ⟨p.2, hp2, by rw [← hp1]⟩
            rw [hX]
            constructor
            · rintro ((hin | ⟨hp1, hp2⟩) | ⟨hpU, m', hm', hmt, hpa⟩)
              · exact Or.inl hin
              · exact Or.inr ⟨hp1 ▸ hU, m, List.mem_cons_self m ms, hp1 ▸ hlt, hp2⟩
              · exact Or.inr ⟨hpU, m', List.mem_cons_of_mem _ hm', hmt, hpa⟩
            · rintro (hin | ⟨hpU, m', hm', hmt, hpa⟩)
              · exact Or.inl (Or.inl hin)
              · rcases List.mem_cons.mp hm' with rfl | hm2
                · have hlp : lt = p.1 := Option.some.inj (hlt.symm.trans hmt)
                  exact Or.inl (Or.inr ⟨hlp.symm, hpa⟩)
                · exact Or.inr ⟨hpU, m', hm2, hmt, hpa⟩
          · rw [IH.2]
            by_cases hpl : p.1 = lt
            · have : p.1 ∉ ALLURE_UNIQUE_LABELS := hpl ▸ hU
              simp [this]
            · rw [firstLabelMark_cons_ne m ms p.1 lt hlt hpl]

/-- Membership characterisation of `allure_labels`: a pair of unique kind is
in the result iff it is the head argument of the first marker of that kind;
a pair of any other kind is in the result iff some marker of that kind
lists its value. -/
theorem allure_labels_mem (item : Item) (labs : Finset (String × String))
    (h : allure_labels item = some labs) (p : String × String) :
    p ∈ labs ↔
      (p.1 ∈ ALLURE_UNIQUE_LABELS ∧
        ∃ fm, firstLabelMark (labelMarks item) p.1 = some fm ∧
          fm.args.head? = some p.2) ∨
      (p.1 ∉ ALLURE_UNIQUE_LABELS ∧
        ∃ m ∈ labelMarks item, markLabelType m = some p.1 ∧ p.2 ∈ m.args) := by
  rw [allure_labels] at h
  cases hc : collectLabels (labelMarks item) [] ∅ with
  | none => rw [hc] at h; cases h
  | some ul =>
    rw [hc, Option.map_some'] at h
    obtain ⟨u, l⟩ := ul
    obtain rfl : l ∪ u.toFinset = labs := Option.some.inj h
    have hm := collectLabels_mem (labelMarks item) [] ∅ u l hc p
    rw [Finset.mem_union, hm.1, List.mem_toFinset, hm.2]
    simp only [Finset.not_mem_empty, List.not_mem_nil, false_or, hasKey, List.any_nil]
    constructor
    · rintro (⟨hpU, hA⟩ | ⟨hpU, hB⟩)
      · exact Or.inr ⟨hpU, hA⟩
      · exact Or.inl ⟨hpU, hB.2⟩
    · rintro (⟨hpU, hB⟩ | ⟨hpU, hA⟩)
      · exact Or.inr ⟨hpU, trivial, hB⟩
      · exact Or.inl ⟨hpU, hA⟩

/-- Claim C3: each unique-kind label appears at most once in
`allure_labels`, holding the first positional argument of the first
annotation of that kind (later annotations of the same unique kind are
ignored without error), and every non-unique (kind, argument) pair is
accumulated with set semantics: membership is exactly "some annotation of
that kind lists the value", so equal duplicates collapse to one entry. -/
theorem allure_labels_unique_and_set (item : Item) (labs : Finset (String × String))
    (h : allure_labels item = some labs) :
    (∀ k ∈ ALLURE_UNIQUE_LABELS, (labs.filter (fun p => p.1 = k)).card ≤ 1) ∧
    (∀ k ∈ ALLURE_UNIQUE_LABELS, ∀ fm, firstLabelMark (labelMarks item) k = some fm →
      ∀ a, fm.args.head? = some a →
        (k, a) ∈ labs ∧ ∀ v, (k, v) ∈ labs → v = a) ∧
    (∀ k v, k ∉ ALLURE_UNIQUE_LABELS →
      ((k, v) ∈ labs ↔
        ∃ m ∈ labelMarks item, markLabelType m = some k ∧ v ∈ m.args)) := by
  refine ⟨?_, ?_, ?_⟩
  · intro k hk
    rw [Finset.card_le_one]
    intro p hp q hq
    rw [Finset.mem_filter] at hp hq
    obtain ⟨hpmem, hp1⟩ := hp
    obtain ⟨hqmem, hq1⟩ := hq
    rw [allure_labels_mem item labs h] at hpmem hqmem
    rcases hpmem with ⟨_, fp, hfp, hhp⟩ | ⟨hpU, _⟩
    · rcases hqmem with ⟨_, fq, hfq, hhq⟩ | ⟨hqU, _⟩
      · rw [hp1] at hfp
        rw [hq1] at hfq
        obtain rfl : fp = fq := Option.some.inj (hfp.symm.trans hfq)
        have h2 : p.2 = q.2 := Option.some.inj (hhp.symm.trans hhq)
        exact Prod.ext (hp1.trans hq1.symm) h2
      · exact absurd (hq1 ▸ hk) hqU
    · exact absurd (hp1 ▸ hk) hpU
  · intro k hk fm hfm a ha
    constructor
    · rw [allure_labels_mem item labs h]
      exact Or.inl ⟨hk, fm, hfm, ha⟩
    · intro v hv
      rw [allure_labels_mem item labs h] at hv
      rcases hv with ⟨_, fm2, hfm2, hhd2⟩ | ⟨hvU, _⟩
      · obtain rfl : fm = fm2 := Option.some.inj (hfm.symm.trans hfm2)
        exact (Option.some.inj (ha.symm.trans hhd2)).symm
      · exact absurd hk hvU
  · intro k v hk
    rw [allure_labels_mem item labs h]
    constructor
    · rintro (⟨hkU, _⟩ | ⟨_, m, hm, hmt, hma⟩)
      · exact absurd hkU hk
      · exact ⟨m, hm, hmt, hma⟩
    · rintro ⟨m, hm, hmt, hma⟩
      exact Or.inr ⟨hk, m, hm, hmt, hma⟩

/-- Witness for claim C3: an item with two `severity` annotations (values
`critical` then `minor`) and two identical `tag` annotations yields exactly
one severity entry (the first value) and one tag entry. -/
theorem allure_labels_unique_and_set_witness :
    ((({("tag", "t1"), ("severity", "critical")} : Finset (String × String)).filter
      (fun p => p.1 = "severity")).card ≤ 1) ∧
    ("tag", "t1") ∈ ({("tag", "t1"), ("severity", "critical")} : Finset (String × String)) ∧
    ("severity", "critical") ∈
      ({("tag", "t1"), ("severity", "critical")} : Finset (String × String)) :=
  ⟨(allure_labels_unique_and_set
      ⟨"t.py::test_a", "test_a",
        [⟨"allure_label", ["critical"], [("label_type", "severity")]⟩,
         ⟨"allure_label", ["minor"], [("label_type", "severity")]⟩,
         ⟨"allure_label", ["t1"], [("label_type", "tag")]⟩,
         ⟨"allure_label", ["t1"], [("label_type", "tag")]⟩],
        [], none⟩
      {("tag", "t1"), ("severity", "critical")} (by rfl)).1 "severity" (by decide),
   ((allure_labels_unique_and_set
      ⟨"t.py::test_a", "test_a",
        [⟨"allure_label", ["critical"], [("label_type", "severity")]⟩,
         ⟨"allure_label", ["minor"], [("label_type", "severity")]⟩,
         ⟨"allure_label", ["t1"], [("label_type", "tag")]⟩,
         ⟨"allure_label", ["t1"], [("label_type", "tag")]⟩],
        [], none⟩
      {("tag", "t1"), ("severity", "critical")} (by rfl)).2.2 "tag" "t1"
      (by decide)).mpr ⟨⟨"allure_label", ["t1"], [("label_type", "tag")]⟩,
        by decide, by decide, by decide⟩,
   ((allure_labels_unique_and_set
      ⟨"t.py::test_a", "test_a",
        [⟨"allure_label", ["critical"], [("label_type", "severity")]⟩,
         ⟨"allure_label", ["minor"], [("label_type", "severity")]⟩,
         ⟨"allure_label", ["t1"], [("label_type", "tag")]⟩,
         ⟨"allure_label", ["t1"], [("label_type", "tag")]⟩],
        [], none⟩
      {("tag", "t1"), ("severity", "critical")} (by rfl)).2.1 "severity" (by decide)
      ⟨"allure_label", ["critical"], [("label_type", "severity")]⟩ (by decide)
      "critical" (by decide)).1⟩
